import Mathlib

/-!
Verification development for the zerox page-processing orchestration
pipeline (`src/node-zerox/src/types.ts`, `zerox` function and its local
helpers `processOCR` and `processExtraction`).

The shallow embedding models the orchestration observable state:
the per-invocation mutable variables (`priorPage`, token counters,
success/failure counters), the per-page OCR task, the two scheduling
modes (sequential format-continuity mode and bounded-concurrency mode,
the latter abstracted by the order in which the atomic tasks complete),
the extraction tasks and their `Promise.all` combination, the
extraction-result reduce/merge, the caller page-number remapping, and
the try/finally teardown structure.  External effects (file IO, the
vision model) are abstracted as oracle functions passed in as
parameters; their results drive the control flow exactly as in the
source.
-/

namespace Zerox

/-- `PageStatus` enum from the source. -/
inductive PageStatus where
  | SUCCESS
  | ERROR
deriving DecidableEq, Repr

/-- `ErrorMode` enum from the source. -/
inductive ErrorMode where
  | THROW
  | IGNORE
deriving DecidableEq, Repr

/-- A successful OCR completion, after `CompletionProcessor.process`:
recognized text plus token counts (interface `CompletionResponse`). -/
structure OcrCompletion where
  content : String
  inputTokens : Nat
  outputTokens : Nat
deriving DecidableEq, Repr

/-- The `Page` record from the source (`types.ts`).  `page` is the
scheduler-assigned page number (`i + 1` over the image list); optional
fields are `Option`. -/
structure Page where
  content : String
  contentLength : Nat
  page : Nat
  status : PageStatus
  error : Option String
  inputTokens : Option Nat
  outputTokens : Option Nat
deriving DecidableEq, Repr

/-- The arguments handed to `modelInstance.getCompletion(OperationMode.OCR, ...)`:
the current value of the shared `priorPage` variable together with the
`maintainFormat` flag (the image buffer is not modelled; the request is
identified by its page number). -/
structure OcrRequest where
  pageNumber : Nat
  maintainFormat : Bool
  priorPage : String
deriving DecidableEq, Repr

/-- The invocation-scoped mutable variables of `zerox` that the OCR
phase reads and writes. -/
structure OcrState where
  priorPage : String
  inputTokenCount : Nat
  outputTokenCount : Nat
  numSuccessfulOCRRequests : Nat
  numFailedOCRRequests : Nat
deriving DecidableEq, Repr

/-- Initial values of the `zerox` mutable variables. -/
def initialOcrState : OcrState :=
  { priorPage := "", inputTokenCount := 0, outputTokenCount := 0,
    numSuccessfulOCRRequests := 0, numFailedOCRRequests := 0 }

/-- Modelled from the spec: `runRetries` / `RetryExecutor` (§4.1) is
imported from `./utils`, whose source is not part of the repository
snapshot.  It attempts the operation up to `maxAttempts` times (a value
of `1` means no retry); on each failure it retries if attempts remain
and re-raises the last error once attempts are exhausted.  `op j` is
the outcome of the `j`-th attempt.  The inner counter is the attempt
index; the degenerate budget `0` behaves like `1` (at least one
attempt is always made). -/
def runRetriesGo {α : Type} (op : Nat → Except String α) : Nat → Nat → Except String α
  | 0, j => op j
  | 1, j => op j
  | n + 2, j =>
    match op j with
    | .ok a => .ok a
    | .error _ => runRetriesGo op (n + 1) (j + 1)

/-- Modelled from the spec: entry point of the retry executor, see
`runRetriesGo`. -/
def runRetries {α : Type} (op : Nat → Except String α) (maxAttempts : Nat) : Except String α :=
  runRetriesGo op maxAttempts 0

/-- The body of the per-page OCR task `processOCR` from the source,
after the post-retry completion outcome is known.  `attempts req j` is
the outcome of the `j`-th completion attempt for request `req` (the
source closure re-invokes `modelInstance.getCompletion` with the same
captured arguments on each retry).  Returns the request that was
issued together with either the thrown error (THROW policy) or the
produced `Page` and the updated shared state. -/
def processOCR (errorMode : ErrorMode) (attempts : OcrRequest → Nat → Except String OcrCompletion)
    (maxRetries : Nat) (maintainFormat : Bool) (st : OcrState) (pageNumber : Nat) :
    OcrRequest × Except String (Page × OcrState) :=
  let req : OcrRequest := ⟨pageNumber, maintainFormat, st.priorPage⟩
  match runRetries (attempts req) maxRetries with
  | .ok response =>
    (req, .ok
      ({ content := response.content,
         contentLength := response.content.length,
         page := pageNumber,
         status := PageStatus.SUCCESS,
         error := none,
         inputTokens := some response.inputTokens,
         outputTokens := some response.outputTokens },
       { st with
         inputTokenCount := st.inputTokenCount + response.inputTokens,
         outputTokenCount := st.outputTokenCount + response.outputTokens,
         priorPage := response.content,
         numSuccessfulOCRRequests := st.numSuccessfulOCRRequests + 1 }))
  | .error msg =>
    match errorMode with
    | ErrorMode.THROW => (req, .error msg)
    | ErrorMode.IGNORE =>
      (req, .ok
        ({ content := "",
           contentLength := 0,
           page := pageNumber,
           status := PageStatus.ERROR,
           error := some ("Failed to process page " ++ toString pageNumber ++ ": " ++ msg),
           inputTokens := none,
           outputTokens := none },
         { st with numFailedOCRRequests := st.numFailedOCRRequests + 1 }))

/-- Format-continuity (sequential) scheduling loop from the source:
process the listed page numbers in order, append each produced page,
and stop as soon as a page has ERROR status.  Also records the list of
completion requests that were issued, in order. -/
def ocrSequential (errorMode : ErrorMode) (attempts : OcrRequest → Nat → Except String OcrCompletion)
    (maxRetries : Nat) :
    OcrState → List Nat → Except String (List Page × List OcrRequest × OcrState)
  | st, [] => .ok ([], [], st)
  | st, pn :: rest =>
    match processOCR errorMode attempts maxRetries true st pn with
    | (_, .error e) => .error e
    | (req, .ok (page, st1)) =>
      if page.status = PageStatus.ERROR then
        .ok ([page], [req], st1)
      else
        match ocrSequential errorMode attempts maxRetries st1 rest with
        | .error e => .error e
        | .ok (ps, reqs, st2) => .ok (page :: ps, req :: reqs, st2)

/-- Bounded-concurrency scheduling from the source: every task `i`
runs `processOCR` for page number `i + 1` with `maintainFormat = false`
and writes its result into slot `i` of a pre-sized array.  The runtime
is single-threaded cooperative, so an execution is a sequence of task
completions; `order` is the order in which the tasks run (any order
the `p-limit` admission and I/O timing can produce).  Also records the
issued completion requests chronologically. -/
def ocrConcurrent (errorMode : ErrorMode) (attempts : OcrRequest → Nat → Except String OcrCompletion)
    (maxRetries : Nat) :
    OcrState → List (Option Page) → List OcrRequest → List Nat →
      Except String (List (Option Page) × List OcrRequest × OcrState)
  | st, slots, reqs, [] => .ok (slots, reqs, st)
  | st, slots, reqs, i :: rest =>
    match processOCR errorMode attempts maxRetries false st (i + 1) with
    | (_, .error e) => .error e
    | (req, .ok (page, st1)) =>
      ocrConcurrent errorMode attempts maxRetries st1 (slots.set i (some page)) (reqs ++ [req]) rest

end Zerox

namespace Zerox

/-- A JavaScript-like value, as handled by the extraction code paths:
`null`, booleans, numbers, strings, arrays and plain objects
(insertion-ordered key/value lists).  `undefined` is represented by
absence (an `Option.none` lookup). -/
inductive JValue where
  | jnull
  | jbool (b : Bool)
  | jnum (n : Int)
  | jstr (s : String)
  | jarr (xs : List JValue)
  | jobj (fields : List (String × JValue))

/-- A JavaScript object, insertion ordered. -/
abbrev JObject := List (String × JValue)

/-- Property read `obj[key]`: first binding wins (object keys are
unique in JS; on the lists we produce they are). -/
def jLookup : JObject → String → Option JValue
  | [], _ => none
  | (k2, v) :: rest, k => if k2 = k then some v else jLookup rest k

/-- Property write `obj[key] = v`: overwrite in place, or append a new
key at the end (JS insertion order). -/
def jSet : JObject → String → JValue → JObject
  | [], k, v => [(k, v)]
  | (k2, v2) :: rest, k, v =>
    if k2 = k then (k2, v) :: rest else (k2, v2) :: jSet rest k v

/-- JavaScript falsiness of a defined value (`!x`): `null`, `false`,
`0` and `""` are falsy; arrays and objects are truthy. -/
def jFalsy : JValue → Bool
  | .jnull => true
  | .jbool b => !b
  | .jnum n => n = 0
  | .jstr s => s = ""
  | .jarr _ => false
  | .jobj _ => false

/-- Elements of an array value (empty for non-arrays). -/
def jElems : JValue → List JValue
  | .jarr xs => xs
  | _ => []

/-- `Array.isArray`. -/
def jIsArr : JValue → Bool
  | .jarr _ => true
  | _ => false

/-- One key/value step of the `results.reduce` merge in `zerox`
(extraction aggregation): `if (!acc[key]) acc[key] = [];
if (Array.isArray(value)) acc[key].push(...value); else acc[key] = value;`.
A `push` on a truthy non-array accumulator entry would be a JS
`TypeError`; that case is `none`. -/
def mergePair (acc : JObject) (k : String) (v : JValue) : Option JObject :=
  let acc1 :=
    match jLookup acc k with
    | none => jSet acc k (JValue.jarr [])
    | some w => if jFalsy w then jSet acc k (JValue.jarr []) else acc
  match v with
  | .jarr xs =>
    match jLookup acc1 k with
    | some (.jarr ys) => some (jSet acc1 k (.jarr (ys ++ xs)))
    | _ => none
  | _ => some (jSet acc1 k v)

/-- Merge one task-result object into the accumulator
(`Object.entries(result).forEach(...)`). -/
def mergeResult (acc : JObject) : JObject → Option JObject
  | [] => some acc
  | (k, v) :: rest =>
    match mergePair acc k v with
    | none => none
    | some acc1 => mergeResult acc1 rest

/-- The whole `results.reduce((acc, result) => ..., {})` fold of
`zerox`'s extraction aggregation. -/
def mergeAllFrom (acc : JObject) : List JObject → Option JObject
  | [] => some acc
  | r :: rest =>
    match mergeResult acc r with
    | none => none
    | some acc1 => mergeAllFrom acc1 rest

/-- Aggregate a list of extraction-task results starting from the
empty object, as in the source. -/
def mergeAll (results : List JObject) : Option JObject :=
  mergeAllFrom [] results

/-- The sequence stored at a key (the array contents; `[]` when the
key is absent or holds a non-array). -/
def seqAt (acc : JObject) (k : String) : List JValue :=
  match jLookup acc k with
  | some (.jarr xs) => xs
  | _ => []

/-- Whether a key is present. -/
def hasKey (acc : JObject) (k : String) : Bool :=
  (jLookup acc k).isSome

/-- Whether every value of a result object is an array (the shape every
per-page extraction task's result has). -/
def allValuesArr (r : JObject) : Bool :=
  r.all fun p => jIsArr p.2

/-- All array elements a single result object contributes to key `k`. -/
def collectKey (r : JObject) (k : String) : List JValue :=
  ((r.filter fun p => p.1 = k).map fun p => jElems p.2).flatten

end Zerox

namespace Zerox

/-- A successful extraction completion after
`CompletionProcessor.process`: the extracted object plus token
counts. -/
structure ExtCompletion where
  extracted : JObject
  inputTokens : Nat
  outputTokens : Nat

/-- The invocation-scoped mutable variables the extraction phase reads
and writes. -/
structure ExtState where
  inputTokenCount : Nat
  outputTokenCount : Nat
  numSuccessfulExtractionRequests : Nat
  numFailedExtractionRequests : Nat
deriving DecidableEq, Repr

/-- The result-shaping loop inside `processExtraction`: for every key
of the task schema, a defined non-null extracted value is wrapped as
`{ page, value }` and pushed onto `result[key]` (which is reset to `[]`
whenever it is not an array). -/
def buildExtractionResult (schemaKeys : List String) (extracted : JObject)
    (pageNumber : Int) : JObject :=
  schemaKeys.foldl
    (fun result key =>
      match jLookup extracted key with
      | none => result
      | some v =>
        match v with
        | .jnull => result
        | _ =>
          let result1 :=
            if jIsArr ((jLookup result key).getD JValue.jnull) then result
            else jSet result key (JValue.jarr [])
          match jLookup result1 key with
          | some (.jarr ys) =>
            jSet result1 key
              (JValue.jarr (ys ++ [JValue.jobj [("page", JValue.jnum pageNumber), ("value", v)]]))
          | _ => result1)
    []

/-- One scheduled extraction task from the source: a per-page task
(wrapped in `runRetries`, building the `{page, value}` result object)
or the single full-document task (no retry wrapper; its extracted
object is returned as-is).  The oracle functions give the completion
outcomes. -/
inductive ExtTask where
  | perPage (schemaKeys : List String) (pageNumber : Int)
      (attempts : Nat → Except String ExtCompletion)
  | fullDoc (outcome : Except String ExtCompletion)

/-- Run one extraction task against the shared counters; mirrors
`processExtraction` (per-page) and the inline full-document async
function, including the `catch { numFailedExtractionRequests++; throw }`
blocks. -/
def runExtTask (maxRetries : Nat) : ExtTask → ExtState → Except String JObject × ExtState
  | ExtTask.perPage schemaKeys pageNumber attempts, st =>
    match runRetries attempts maxRetries with
    | .ok r =>
      (.ok (buildExtractionResult schemaKeys r.extracted pageNumber),
       { st with
         inputTokenCount := st.inputTokenCount + r.inputTokens,
         outputTokenCount := st.outputTokenCount + r.outputTokens,
         numSuccessfulExtractionRequests := st.numSuccessfulExtractionRequests + 1 })
    | .error msg =>
      (.error msg, { st with numFailedExtractionRequests := st.numFailedExtractionRequests + 1 })
  | ExtTask.fullDoc outcome, st =>
    match outcome with
    | .ok r =>
      (.ok r.extracted,
       { st with
         inputTokenCount := st.inputTokenCount + r.inputTokens,
         outputTokenCount := st.outputTokenCount + r.outputTokens,
         numSuccessfulExtractionRequests := st.numSuccessfulExtractionRequests + 1 })
    | .error msg =>
      (.error msg, { st with numFailedExtractionRequests := st.numFailedExtractionRequests + 1 })

/-- Run every dispatched extraction task (none is cancelled; the
runtime lets each settle), threading the shared counters and
collecting each task's own settled result. -/
def runExtTasks (maxRetries : Nat) : List ExtTask → ExtState →
    List (Except String JObject) × ExtState
  | [], st => ([], st)
  | t :: ts, st =>
    let (r, st1) := runExtTask maxRetries t st
    let (rs, st2) := runExtTasks maxRetries ts st1
    (r :: rs, st2)

/-- `Promise.all` over settled results: the first rejection rejects the
whole combination, otherwise all fulfilled values are collected. -/
def promiseAll {α : Type} : List (Except String α) → Except String (List α)
  | [] => .ok []
  | .error e :: _ => .error e
  | .ok v :: rest =>
    match promiseAll rest with
    | .error e => .error e
    | .ok vs => .ok (v :: vs)

/-- The `pagesToConvertAsImages` argument: a single number (with `-1`
the "all pages" sentinel) or an array of page numbers. -/
inductive PagesSel where
  | num (n : Int)
  | arr (xs : List Int)
deriving DecidableEq, Repr

/-- The in-place ascending numeric sort `p.sort((a, b) => a - b)`
applied to the selector array. -/
def sortAsc (xs : List Int) : List Int :=
  List.insertionSort (fun a b => a ≤ b) xs

/-- The `if (Array.isArray(pagesToConvertAsImages)) pagesToConvertAsImages.sort(...)`
step of `zerox`. -/
def sortSel : PagesSel → PagesSel
  | .num n => .num n
  | .arr xs => .arr (sortAsc xs)

/-- The `correctPageNumber` computation of the `formattedPages` map in
`zerox` (the selector here is the already-sorted variable): sentinel
`-1` gives `i + 1`; an array gives `selector[i]` (JS `undefined`, i.e.
`none`, past the end); any other number gives that number. -/
def correctPageNumber (sel : PagesSel) (i : Nat) : Option Int :=
  match sel with
  | .num n => if n = -1 then some ((i : Int) + 1) else some n
  | .arr xs => xs[i]?

/-- A page record after the final `formattedPages` remap; `page` is
`Option Int` because a too-short selector array yields JS
`undefined`. -/
structure FormattedPage where
  content : String
  contentLength : Nat
  page : Option Int
  status : PageStatus
  error : Option String
  inputTokens : Option Nat
  outputTokens : Option Nat
deriving DecidableEq, Repr

/-- `{...page, page: correctPageNumber}` for one page at index `i`. -/
def formatPage (sel : PagesSel) (i : Nat) (p : Page) : FormattedPage :=
  { content := p.content,
    contentLength := p.contentLength,
    page := correctPageNumber sel i,
    status := p.status,
    error := p.error,
    inputTokens := p.inputTokens,
    outputTokens := p.outputTokens }

/-- The `pages.map((page, i) => ...)` remap, indices starting at `k`. -/
def formatPagesFrom (sel : PagesSel) : Nat → List Page → List FormattedPage
  | _, [] => []
  | k, p :: rest => formatPage sel k p :: formatPagesFrom sel (k + 1) rest

/-- The final caller-facing page list of `zerox`. -/
def formatPages (sel : PagesSel) (ps : List Page) : List FormattedPage :=
  formatPagesFrom sel 0 ps

end Zerox

namespace Zerox

/-- Resource-teardown effects observable from outside the pipeline. -/
inductive TeardownEvent where
  | removeTempDir
  | terminateScheduler
deriving DecidableEq, Repr

/-- The configuration slice of `ZeroxArgs` that drives the control
flow modelled here. -/
structure ZeroxConfig where
  cleanup : Bool
  correctOrientation : Bool
  errorMode : ErrorMode
  maintainFormat : Bool
  maxRetries : Nat
  pagesToConvertAsImages : PagesSel

/-- The OCR phase of `zerox` (the `if (!extractOnly)` block): the
sequential loop under `maintainFormat`, otherwise the bounded
concurrency fan-out over `n` images with completion order `order`. -/
def ocrPhase (cfg : ZeroxConfig) (attempts : OcrRequest → Nat → Except String OcrCompletion)
    (order : List Nat) (n : Nat) : Except String (List Page) :=
  if cfg.maintainFormat then
    match ocrSequential cfg.errorMode attempts cfg.maxRetries initialOcrState (List.range' 1 n) with
    | .error e => .error e
    | .ok (ps, _, _) => .ok ps
  else
    match ocrConcurrent cfg.errorMode attempts cfg.maxRetries initialOcrState
        (List.replicate n none) [] order with
    | .error e => .error e
    | .ok (slots, _, _) => .ok (slots.filterMap id)

/-- The `try` body of `zerox` (no extraction schema): selector sort,
OCR phase, then — only on the success path — the conditional
temp-directory removal (`if (cleanup) await fs.remove(tempDirectory)`)
followed by the `formattedPages` remap of the returned pages. -/
def zeroxTryBody (cfg : ZeroxConfig) (attempts : OcrRequest → Nat → Except String OcrCompletion)
    (order : List Nat) (n : Nat) :
    Except String (List FormattedPage) × List TeardownEvent :=
  let sortedSel := sortSel cfg.pagesToConvertAsImages
  match ocrPhase cfg attempts order n with
  | .error e => (.error e, [])
  | .ok ps =>
    (.ok (formatPages sortedSel ps),
     if cfg.cleanup then [TeardownEvent.removeTempDir] else [])

/-- The whole `try ... finally` of `zerox`: the `finally` block
terminates the tesseract scheduler when orientation correction is
enabled, on both outcomes of the body. -/
def zeroxCore (cfg : ZeroxConfig) (attempts : OcrRequest → Nat → Except String OcrCompletion)
    (order : List Nat) (n : Nat) :
    Except String (List FormattedPage) × List TeardownEvent :=
  ((zeroxTryBody cfg attempts order n).1,
   (zeroxTryBody cfg attempts order n).2 ++
     (if cfg.correctOrientation then [TeardownEvent.terminateScheduler] else []))

/-- `ModelProvider` enum from the source. -/
inductive ModelProvider where
  | BEDROCK
  | OPENAI
deriving DecidableEq, Repr

/-- A credentials object as a field map (JS `undefined` fields are
absent; all defined credential values are strings). -/
abbrev Credentials := List (String × String)

/-- Lines 187-190 of `zerox`: a non-empty `openaiAPIKey`
(`openaiAPIKey && openaiAPIKey.length > 0`) forces the OpenAI provider
and replaces the credentials object with `{ apiKey: openaiAPIKey }`. -/
def applyOpenAIKeyOverride (openaiAPIKey : String) (modelProvider : ModelProvider)
    (credentials : Credentials) : ModelProvider × Credentials :=
  if 0 < openaiAPIKey.length then
    (ModelProvider.OPENAI, [("apiKey", openaiAPIKey)])
  else
    (modelProvider, credentials)

/-- The "Missing credentials" validator predicate:
`Object.values(credentials).every((credential) => !credential)` (an
empty string is the only falsy defined credential value). -/
def missingCredentials (credentials : Credentials) : Bool :=
  credentials.all fun p => p.2 = ""

/-- The `pagesToConvertAsImages` argument as the caller passes it: a
number, or a reference into a store of array objects (modelling JS
array identity, so the in-place `sort` is observable). -/
inductive PagesArgRef where
  | num (n : Int)
  | ref (r : Nat)
deriving DecidableEq, Repr

/-- A heap of array objects the caller can hold references into. -/
abbrev ArrayStore := List (List Int)

/-- The caller-observable effect of the selector sort
(`pagesToConvertAsImages.sort((a, b) => a - b)`) on the array store:
the referenced array object is replaced in place by its ascending
sort; a numeric argument touches nothing. -/
def sortPagesInStore (store : ArrayStore) : PagesArgRef → ArrayStore
  | .num _ => store
  | .ref r =>
    match store[r]? with
    | some xs => store.set r (sortAsc xs)
    | none => store

end Zerox

namespace Zerox

/-- Observation: the sequence at a key through the optional aggregate. -/
def mergedSeqAt (o : Option JObject) (k : String) : List JValue :=
  match o with
  | some acc => seqAt acc k
  | none => []

/-- Observation: key presence through the optional aggregate. -/
def mergedHasKey (o : Option JObject) (k : String) : Bool :=
  match o with
  | some acc => hasKey acc k
  | none => false

/-- Accumulators whose every stored value is an array. -/
def AccArr (acc : JObject) : Prop :=
  ∀ k v, jLookup acc k = some v → ∃ xs, v = JValue.jarr xs

theorem jLookup_jSet_self (acc : JObject) (k : String) (v : JValue) :
    jLookup (jSet acc k v) k = some v := by
  induction acc with
  | nil => simp [jSet, jLookup]
  | cons p rest ih =>
    obtain ⟨k2, v2⟩ := p
    by_cases h : k2 = k
    · simp [jSet, jLookup, h]
    · simp [jSet, jLookup, h, ih]

theorem jLookup_jSet_ne (acc : JObject) (k k2 : String) (v : JValue) (h : k2 ≠ k) :
    jLookup (jSet acc k v) k2 = jLookup acc k2 := by
  induction acc with
  | nil => simp [jSet, jLookup, Ne.symm h]
  | cons p rest ih =>
    obtain ⟨k3, v3⟩ := p
    by_cases h3 : k3 = k
    · subst h3
      simp [jSet, jLookup, Ne.symm h]
    · by_cases h2 : k3 = k2
      · subst h2
        simp [jSet, jLookup, h3]
      · simp [jSet, jLookup, h3, h2, ih]

theorem accArr_jSet (acc : JObject) (k : String) (xs : List JValue) (hacc : AccArr acc) :
    AccArr (jSet acc k (JValue.jarr xs)) := by
  intro k2 v hv
  by_cases h : k2 = k
  · subst h
    rw [jLookup_jSet_self] at hv
    injection hv with hv2
    exact ⟨xs, hv2.symm⟩
  · rw [jLookup_jSet_ne _ _ _ _ h] at hv
    exact hacc k2 v hv

theorem seqAt_jSet_self (acc : JObject) (k : String) (xs : List JValue) :
    seqAt (jSet acc k (JValue.jarr xs)) k = xs := by
  simp [seqAt, jLookup_jSet_self]

theorem seqAt_jSet_ne (acc : JObject) (k k2 : String) (v : JValue) (h : k2 ≠ k) :
    seqAt (jSet acc k v) k2 = seqAt acc k2 := by
  simp [seqAt, jLookup_jSet_ne _ _ _ _ h]

theorem hasKey_jSet_self (acc : JObject) (k : String) (v : JValue) :
    hasKey (jSet acc k v) k = true := by
  simp [hasKey, jLookup_jSet_self]

theorem hasKey_jSet_ne (acc : JObject) (k k2 : String) (v : JValue) (h : k2 ≠ k) :
    hasKey (jSet acc k v) k2 = hasKey acc k2 := by
  simp [hasKey, jLookup_jSet_ne _ _ _ _ h]

theorem mergePair_arr (acc : JObject) (k : String) (xs : List JValue) (hacc : AccArr acc) :
    ∃ acc2, mergePair acc k (JValue.jarr xs) = some acc2 ∧ AccArr acc2 ∧
      seqAt acc2 k = seqAt acc k ++ xs ∧
      (∀ k2, k2 ≠ k → jLookup acc2 k2 = jLookup acc k2) ∧
      hasKey acc2 k = true := by
  rcases h : jLookup acc k with _ | w
  · refine ⟨jSet (jSet acc k (JValue.jarr [])) k (JValue.jarr ([] ++ xs)), ?_, ?_, ?_, ?_, ?_⟩
    · simp [mergePair, h, jLookup_jSet_self]
    · exact accArr_jSet _ _ _ (accArr_jSet _ _ _ hacc)
    · rw [seqAt_jSet_self]
      simp [seqAt, h]
    · intro k2 hk2
      rw [jLookup_jSet_ne _ _ _ _ hk2, jLookup_jSet_ne _ _ _ _ hk2]
    · exact hasKey_jSet_self _ _ _
  · obtain ⟨ys, rfl⟩ := hacc k w h
    refine ⟨jSet acc k (JValue.jarr (ys ++ xs)), ?_, ?_, ?_, ?_, ?_⟩
    · simp [mergePair, h, jFalsy]
    · exact accArr_jSet _ _ _ hacc
    · rw [seqAt_jSet_self]
      simp [seqAt, h]
    · intro k2 hk2
      rw [jLookup_jSet_ne _ _ _ _ hk2]
    · exact hasKey_jSet_self _ _ _

theorem mergeResult_spec : ∀ (r acc : JObject), allValuesArr r = true → AccArr acc →
    ∃ acc2, mergeResult acc r = some acc2 ∧ AccArr acc2 ∧
      (∀ k, seqAt acc2 k = seqAt acc k ++ collectKey r k) ∧
      (∀ k, hasKey acc2 k = (hasKey acc k || r.any fun p => p.1 = k)) := by
  intro r
  induction r with
  | nil =>
    intro acc _ hacc
    exact ⟨acc, rfl, hacc, fun k => by simp [collectKey], fun k => by simp⟩
  | cons p rest ih =>
    intro acc hall hacc
    obtain ⟨k0, v0⟩ := p
    have hv0 : jIsArr v0 = true := by
      have := (List.all_eq_true.mp hall) (k0, v0) (by simp)
      simpa [allValuesArr] using this
    obtain ⟨xs0, rfl⟩ : ∃ xs0, v0 = JValue.jarr xs0 := by
      cases v0 <;> simp [jIsArr] at hv0 ⊢
    obtain ⟨acc1, hpair, hacc1, hseq1, hframe1, hkey1⟩ := mergePair_arr acc k0 xs0 hacc
    have hall1 : allValuesArr rest = true := by
      simp only [allValuesArr, List.all_cons, Bool.and_eq_true] at hall
      exact hall.2
    obtain ⟨acc2, hrest, hacc2, hseq2, hkey2⟩ := ih acc1 hall1 hacc1
    refine ⟨acc2, ?_, hacc2, ?_, ?_⟩
    · simp [mergeResult, hpair, hrest]
    · intro k
      by_cases hk : k = k0
      · subst hk
        simp [hseq2, hseq1, collectKey, List.filter_cons, jElems, List.append_assoc]
      · have hk0 : ¬ (k0 = k) := fun hh => hk hh.symm
        have hfr : seqAt acc1 k = seqAt acc k := by
          simp [seqAt, hframe1 k hk]
        simp [hseq2, hfr, collectKey, List.filter_cons, hk0]
    · intro k
      by_cases hk : k = k0
      · subst hk
        simp [hkey2, hkey1]
      · have hk0 : ¬ (k0 = k) := fun hh => hk hh.symm
        have hfr : hasKey acc1 k = hasKey acc k := by
          simp [hasKey, hframe1 k hk]
        simp [hkey2, hfr, List.any_cons, hk0]

end Zerox

namespace Zerox

theorem mergeAllFrom_spec : ∀ (l : List JObject) (acc : JObject),
    (∀ r ∈ l, allValuesArr r = true) → AccArr acc →
    ∃ acc2, mergeAllFrom acc l = some acc2 ∧ AccArr acc2 ∧
      (∀ k, seqAt acc2 k = seqAt acc k ++ ((l.map fun r => collectKey r k).flatten)) ∧
      (∀ k, hasKey acc2 k = (hasKey acc k || l.any fun r => r.any fun p => p.1 = k)) := by
  intro l
  induction l with
  | nil =>
    intro acc _ hacc
    exact ⟨acc, rfl, hacc, fun k => by simp, fun k => by simp⟩
  | cons r rest ih =>
    intro acc hall hacc
    obtain ⟨acc1, hr, hacc1, hseq1, hkey1⟩ :=
      mergeResult_spec r acc (hall r (by simp)) hacc
    obtain ⟨acc2, hrest, hacc2, hseq2, hkey2⟩ :=
      ih acc1 (fun r2 hr2 => hall r2 (by simp [hr2])) hacc1
    refine ⟨acc2, ?_, hacc2, ?_, ?_⟩
    · simp [mergeAllFrom, hr, hrest]
    · intro k
      simp [hseq2, hseq1, List.append_assoc]
    · intro k
      simp [hkey2, hkey1, Bool.or_assoc]

theorem mergeAll_spec (l : List JObject) (hall : ∀ r ∈ l, allValuesArr r = true) :
    ∃ acc, mergeAll l = some acc ∧
      (∀ k, seqAt acc k = ((l.map fun r => collectKey r k).flatten)) ∧
      (∀ k, hasKey acc k = (l.any fun r => r.any fun p => p.1 = k)) := by
  obtain ⟨acc, hm, _, hseq, hkey⟩ :=
    mergeAllFrom_spec l [] hall (fun k v hv => by simp [jLookup] at hv)
  exact ⟨acc, hm, fun k => by simpa [seqAt, jLookup] using hseq k,
         fun k => by simpa [hasKey, jLookup] using hkey k⟩

theorem perm_any {α : Type} {l1 l2 : List α} (h : l1.Perm l2) (f : α → Bool) :
    l1.any f = l2.any f := by
  induction h with
  | nil => rfl
  | cons x _ ih => simp [List.any_cons, ih]
  | swap x y l => simp [List.any_cons, Bool.or_left_comm]
  | trans _ _ ih1 ih2 => rw [ih1, ih2]

/-- Claim C3: the extraction-result merge (`results.reduce` in `zerox`)
is order-independent across per-page results: for result mappings whose
values are all arrays of `{page, value}` entries, folding them in any
permutation succeeds and yields, at every key, the same key presence
and the same stored sequence up to permutation (entries keep their
explicit `page` tags, which is what makes the reordering harmless). -/
theorem c3_extraction_merge_order_independent (l1 l2 : List JObject) (k : String)
    (hperm : l1.Perm l2) (hvals : ∀ r ∈ l1, allValuesArr r = true) :
    (mergeAll l1).isSome = true ∧ (mergeAll l2).isSome = true ∧
      mergedHasKey (mergeAll l1) k = mergedHasKey (mergeAll l2) k ∧
      (mergedSeqAt (mergeAll l1) k).Perm (mergedSeqAt (mergeAll l2) k) := by
  have hvals2 : ∀ r ∈ l2, allValuesArr r = true := fun r hr =>
    hvals r (hperm.mem_iff.mpr hr)
  obtain ⟨a1, h1, hs1, hk1⟩ := mergeAll_spec l1 hvals
  obtain ⟨a2, h2, hs2, hk2⟩ := mergeAll_spec l2 hvals2
  refine ⟨by simp [h1], by simp [h2], ?_, ?_⟩
  · rw [h1, h2]
    show hasKey a1 k = hasKey a2 k
    rw [hk1 k, hk2 k]
    exact perm_any hperm _
  · rw [h1, h2]
    show (seqAt a1 k).Perm (seqAt a2 k)
    rw [hs1 k, hs2 k]
    exact (hperm.map fun r => collectKey r k).flatten

/-- Witness for C3 at a concrete pair of single-field per-page results
merged in the two orders. -/
theorem c3_extraction_merge_order_independent_witness :
    ([[("f", JValue.jarr [JValue.jobj [("page", JValue.jnum 1), ("value", JValue.jstr "x")]])],
      [("f", JValue.jarr [JValue.jobj [("page", JValue.jnum 2), ("value", JValue.jstr "y")]])]].Perm
     [[("f", JValue.jarr [JValue.jobj [("page", JValue.jnum 2), ("value", JValue.jstr "y")]])],
      [("f", JValue.jarr [JValue.jobj [("page", JValue.jnum 1), ("value", JValue.jstr "x")]])]]) ∧
    (mergedSeqAt (mergeAll
      [[("f", JValue.jarr [JValue.jobj [("page", JValue.jnum 1), ("value", JValue.jstr "x")]])],
       [("f", JValue.jarr [JValue.jobj [("page", JValue.jnum 2), ("value", JValue.jstr "y")]])]]) "f").Perm
    (mergedSeqAt (mergeAll
      [[("f", JValue.jarr [JValue.jobj [("page", JValue.jnum 2), ("value", JValue.jstr "y")]])],
       [("f", JValue.jarr [JValue.jobj [("page", JValue.jnum 1), ("value", JValue.jstr "x")]])]]) "f") :=
  ⟨List.Perm.swap _ _ _,
   (c3_extraction_merge_order_independent _ _ "f" (List.Perm.swap _ _ _)
     (by decide)).2.2.2⟩

end Zerox

namespace Zerox

theorem processOCR_req (em : ErrorMode) (attempts : OcrRequest → Nat → Except String OcrCompletion)
    (mr : Nat) (mf : Bool) (st : OcrState) (pn : Nat) :
    (processOCR em attempts mr mf st pn).1 = ⟨pn, mf, st.priorPage⟩ := by
  rcases h : runRetries (attempts ⟨pn, mf, st.priorPage⟩) mr with msg | resp
  · cases em <;> simp [processOCR, h]
  · simp [processOCR, h]

theorem processOCR_ignore_ok (attempts : OcrRequest → Nat → Except String OcrCompletion)
    (mr : Nat) (mf : Bool) (st : OcrState) (pn : Nat) :
    ∃ page st1, (processOCR ErrorMode.IGNORE attempts mr mf st pn).2 = Except.ok (page, st1) ∧
      page.page = pn ∧
      (page.status = PageStatus.SUCCESS → st1.priorPage = page.content) := by
  rcases h : runRetries (attempts ⟨pn, mf, st.priorPage⟩) mr with msg | resp
  · refine ⟨{ content := "", contentLength := 0, page := pn, status := PageStatus.ERROR,
              error := some ("Failed to process page " ++ toString pn ++ ": " ++ msg),
              inputTokens := none, outputTokens := none },
            { st with numFailedOCRRequests := st.numFailedOCRRequests + 1 },
            by simp [processOCR, h], rfl, ?_⟩
    intro hs
    simp at hs
  · exact ⟨{ content := resp.content, contentLength := resp.content.length, page := pn,
             status := PageStatus.SUCCESS, error := none,
             inputTokens := some resp.inputTokens, outputTokens := some resp.outputTokens },
           { st with
             inputTokenCount := st.inputTokenCount + resp.inputTokens,
             outputTokenCount := st.outputTokenCount + resp.outputTokens,
             priorPage := resp.content,
             numSuccessfulOCRRequests := st.numSuccessfulOCRRequests + 1 },
           by simp [processOCR, h], rfl, fun _ => rfl⟩

theorem ocrSequential_ignore_spec (attempts : OcrRequest → Nat → Except String OcrCompletion)
    (mr : Nat) :
    ∀ (pns : List Nat) (st : OcrState),
    ∃ ps reqs st2,
      ocrSequential ErrorMode.IGNORE attempts mr st pns = .ok (ps, reqs, st2) ∧
      ps.length ≤ pns.length ∧
      ps.map Page.page = pns.take ps.length ∧
      reqs.map OcrRequest.pageNumber = pns.take ps.length ∧
      (∀ r ∈ reqs, r.maintainFormat = true) ∧
      (∀ j p, j + 1 < ps.length → ps[j]? = some p → p.status = PageStatus.SUCCESS) ∧
      (ps.length < pns.length → ∃ p, ps[ps.length - 1]? = some p ∧ p.status = PageStatus.ERROR) ∧
      (∀ r, reqs[0]? = some r → r.priorPage = st.priorPage) ∧
      (∀ j r p, reqs[j + 1]? = some r → ps[j]? = some p → r.priorPage = p.content) ∧
      (0 < pns.length → 0 < ps.length) := by
  intro pns
  induction pns with
  | nil =>
    intro st
    refine ⟨[], [], st, rfl, ?_, ?_, ?_, ?_, ?_, ?_, ?_, ?_, ?_⟩ <;> simp
  | cons pn rest ih =>
    intro st
    obtain ⟨page, st1, hok, hpage, hpp⟩ := processOCR_ignore_ok attempts mr true st pn
    have hsplit : processOCR ErrorMode.IGNORE attempts mr true st pn =
        (⟨pn, true, st.priorPage⟩, Except.ok (page, st1)) := by
      rw [← processOCR_req ErrorMode.IGNORE attempts mr true st pn, ← hok]
    by_cases hstat : page.status = PageStatus.ERROR
    · refine ⟨[page], [⟨pn, true, st.priorPage⟩], st1, ?_, ?_, ?_, ?_, ?_, ?_, ?_, ?_, ?_, ?_⟩
      · simp [ocrSequential, hsplit, hstat]
      · simp
      · simp [hpage]
      · simp
      · simp
      · intro j p hj _
        simp at hj
      · intro _
        exact ⟨page, by simp, hstat⟩
      · intro r hr
        simp at hr
        simp [← hr]
      · intro j r p hr _
        simp at hr
      · intro _
        simp
    · have hsuc : page.status = PageStatus.SUCCESS := by
        cases h : page.status
        · rfl
        · exact absurd h hstat
      obtain ⟨ps1, reqs1, st2, hrec, hlen, hmap, hreqmap, hmf, hsucc, hstop, hpr0, hprS, hpos⟩ :=
        ih st1
      refine ⟨page :: ps1, ⟨pn, true, st.priorPage⟩ :: reqs1, st2, ?_, ?_, ?_, ?_, ?_, ?_, ?_, ?_,
        ?_, ?_⟩
      · simp [ocrSequential, hsplit, hstat, hrec]
      · simpa using Nat.succ_le_succ hlen
      · simp [hpage, hmap, List.take_succ_cons]
      · simp [hreqmap, List.take_succ_cons]
      · intro r hr
        rcases List.mem_cons.mp hr with h | h
        · simp [h]
        · exact hmf r h
      · intro j p hj hp
        cases j with
        | zero =>
          simp at hp
          rw [← hp]
          exact hsuc
        | succ j2 =>
          simp at hp hj
          exact hsucc j2 p (by omega) hp
      · intro hlt
        have hlt1 : ps1.length < rest.length := by
          simpa using hlt
        obtain ⟨p, hp, hperr⟩ := hstop hlt1
        have hne : ps1 ≠ [] := by
          intro he
          subst he
          simp at hp
        have hl1 : ps1.length = (ps1.length - 1) + 1 :=
          (Nat.succ_pred_eq_of_pos (List.length_pos.mpr hne)).symm
        refine ⟨p, ?_, hperr⟩
        have : (page :: ps1).length - 1 = ps1.length := by simp
        rw [this, hl1]
        simpa using hp
      · intro r hr
        simp at hr
        simp [← hr]
      · intro j r p hr hp
        cases j with
        | zero =>
          simp at hr hp
          rw [← hp]
          rw [← hpp hsuc]
          exact hpr0 r hr
        | succ j2 =>
          simp at hr hp
          exact hprS j2 r p hr hp
      · intro _
        simp

end Zerox

namespace Zerox

theorem take_range1 : ∀ (m n s : Nat), m ≤ n → (List.range' s n).take m = List.range' s m := by
  intro m
  induction m with
  | zero =>
    intro n s _
    simp
  | succ m2 ih =>
    intro n s h
    cases n with
    | zero => omega
    | succ n2 =>
      simp [List.range'_succ, List.take_succ_cons, ih n2 (s + 1) (by omega)]

/-- Claim C2: in format-continuity mode (`maintainFormat = true`) with
`errorMode = IGNORE`, if the page at zero-based index `k` of the result
has ERROR status, then exactly `k + 1` pages were produced — the pages
for input images `0` through `k`, numbered `1` through `k + 1`, all
before index `k` SUCCESS — and no further page was processed: exactly
`k + 1` completion requests (for pages `1` through `k + 1`) were ever
issued. -/
theorem c2_format_continuity_stops_at_first_error
    (attempts : OcrRequest → Nat → Except String OcrCompletion) (mr n k : Nat)
    (ps : List Page) (reqs : List OcrRequest) (st2 : OcrState) (p : Page)
    (hrun : ocrSequential ErrorMode.IGNORE attempts mr initialOcrState (List.range' 1 n) =
      .ok (ps, reqs, st2))
    (hk : ps[k]? = some p) (herr : p.status = PageStatus.ERROR) :
    ps.length = k + 1 ∧
    ps.map Page.page = List.range' 1 (k + 1) ∧
    reqs.map OcrRequest.pageNumber = List.range' 1 (k + 1) ∧
    (∀ j q, j < k → ps[j]? = some q → q.status = PageStatus.SUCCESS) := by
  obtain ⟨ps', reqs', st2', heq, hlen, hmap, hreqmap, _, hsucc, _, _, _, _⟩ :=
    ocrSequential_ignore_spec attempts mr (List.range' 1 n) initialOcrState
  rw [heq] at hrun
  simp only [Except.ok.injEq, Prod.mk.injEq] at hrun
  obtain ⟨rfl, rfl, rfl⟩ := hrun
  have hklen : k < ps'.length := by
    by_contra hge
    push_neg at hge
    rw [List.getElem?_eq_none hge] at hk
    simp at hk
  have hlast : ¬ (k + 1 < ps'.length) := by
    intro hlt
    have := hsucc k p hlt hk
    rw [herr] at this
    simp at this
  have hlen1 : ps'.length = k + 1 := by omega
  have hle : k + 1 ≤ n := by
    have := hlen
    rw [List.length_range'] at this
    omega
  refine ⟨hlen1, ?_, ?_, ?_⟩
  · rw [hmap, hlen1, take_range1 (k + 1) n 1 hle]
  · rw [hreqmap, hlen1, take_range1 (k + 1) n 1 hle]
  · intro j q hj hq
    exact hsucc j q (by omega) hq

end Zerox

namespace Zerox

theorem processOCR_ok_page (em : ErrorMode) (attempts : OcrRequest → Nat → Except String OcrCompletion)
    (mr : Nat) (mf : Bool) (st : OcrState) (pn : Nat) (page : Page) (st1 : OcrState)
    (h : (processOCR em attempts mr mf st pn).2 = Except.ok (page, st1)) :
    page.page = pn := by
  rcases hr : runRetries (attempts ⟨pn, mf, st.priorPage⟩) mr with msg | resp
  · cases em
    · simp [processOCR, hr] at h
    · simp [processOCR, hr] at h
      rw [← h.1]
  · simp [processOCR, hr] at h
    rw [← h.1]

theorem ocrConcurrent_spec (em : ErrorMode) (attempts : OcrRequest → Nat → Except String OcrCompletion)
    (mr : Nat) :
    ∀ (order : List Nat) (st : OcrState) (slots : List (Option Page)) (reqs : List OcrRequest)
      (slots2 : List (Option Page)) (reqs2 : List OcrRequest) (st2 : OcrState),
    ocrConcurrent em attempts mr st slots reqs order = .ok (slots2, reqs2, st2) →
    slots2.length = slots.length ∧
    (∀ i, i ∉ order → slots2[i]? = slots[i]?) ∧
    (∀ i, i ∈ order → i < slots.length → ∃ p, slots2[i]? = some (some p) ∧ p.page = i + 1) ∧
    (∀ r ∈ reqs2, r ∈ reqs ∨ r.maintainFormat = false) ∧
    reqs2.length = reqs.length + order.length := by
  intro order
  induction order with
  | nil =>
    intro st slots reqs slots2 reqs2 st2 hrun
    simp only [ocrConcurrent, Except.ok.injEq, Prod.mk.injEq] at hrun
    obtain ⟨rfl, rfl, rfl⟩ := hrun
    exact ⟨rfl, fun i _ => rfl, fun i hi _ => absurd hi (List.not_mem_nil i),
      fun r hr => Or.inl hr, by simp⟩
  | cons i rest ih =>
    intro st slots reqs slots2 reqs2 st2 hrun
    rcases hP : (processOCR em attempts mr false st (i + 1)).2 with e | pagest
    · have hsplit : processOCR em attempts mr false st (i + 1) =
          (⟨i + 1, false, st.priorPage⟩, Except.error e) := by
        rw [← processOCR_req em attempts mr false st (i + 1), ← hP]
      rw [ocrConcurrent, hsplit] at hrun
      simp at hrun
    · obtain ⟨page, st1⟩ := pagest
      have hpage : page.page = i + 1 := processOCR_ok_page em attempts mr false st (i + 1) page st1 hP
      have hsplit : processOCR em attempts mr false st (i + 1) =
          (⟨i + 1, false, st.priorPage⟩, Except.ok (page, st1)) := by
        rw [← processOCR_req em attempts mr false st (i + 1), ← hP]
      rw [ocrConcurrent, hsplit] at hrun
      obtain ⟨hlen, hframe, hwrite, hreq, hreqlen⟩ :=
        ih st1 (slots.set i (some page)) (reqs ++ [⟨i + 1, false, st.priorPage⟩])
          slots2 reqs2 st2 hrun
      refine ⟨by simpa using hlen, ?_, ?_, ?_, ?_⟩
      · intro i0 hi0
        have hne : i0 ≠ i := fun h => hi0 (h ▸ List.mem_cons_self i rest)
        have hnr : i0 ∉ rest := fun h => hi0 (List.mem_cons_of_mem i h)
        rw [hframe i0 hnr, List.getElem?_set_ne (Ne.symm hne)]
      · intro i0 hi0 hilt
        rcases List.mem_cons.mp hi0 with h | h
        · subst h
          by_cases hmem : i0 ∈ rest
          · exact hwrite i0 hmem (by simpa using hilt)
          · refine ⟨page, ?_, hpage⟩
            rw [hframe i0 hmem, List.getElem?_set_eq_of_lt _ hilt]
        · exact hwrite i0 h (by simpa using hilt)
      · intro r hr
        rcases hreq r hr with h | h
        · rcases List.mem_append.mp h with h2 | h2
          · exact Or.inl h2
          · simp at h2
            subst h2
            exact Or.inr rfl
        · exact Or.inr h
      · rw [hreqlen]
        simp
        omega

theorem ocrConcurrent_ignore_ok (attempts : OcrRequest → Nat → Except String OcrCompletion)
    (mr : Nat) :
    ∀ (order : List Nat) (st : OcrState) (slots : List (Option Page)) (reqs : List OcrRequest),
    ∃ out, ocrConcurrent ErrorMode.IGNORE attempts mr st slots reqs order = .ok out := by
  intro order
  induction order with
  | nil => exact fun st slots reqs => ⟨_, rfl⟩
  | cons i rest ih =>
    intro st slots reqs
    obtain ⟨page, st1, hok, _, _⟩ := processOCR_ignore_ok attempts mr false st (i + 1)
    have hsplit : processOCR ErrorMode.IGNORE attempts mr false st (i + 1) =
        (⟨i + 1, false, st.priorPage⟩, Except.ok (page, st1)) := by
      rw [← processOCR_req ErrorMode.IGNORE attempts mr false st (i + 1), ← hok]
    obtain ⟨out, hout⟩ := ih st1 (slots.set i (some page)) (reqs ++ [⟨i + 1, false, st.priorPage⟩])
    exact ⟨out, by
      rw [ocrConcurrent, hsplit]
      exact hout⟩

theorem exists_map_some : ∀ (l : List (Option Page)),
    (∀ i, i < l.length → ∃ p, l[i]? = some (some p)) →
    ∃ ps : List Page, l = ps.map some := by
  intro l
  induction l with
  | nil => exact fun _ => ⟨[], rfl⟩
  | cons o rest ih =>
    intro h
    obtain ⟨p, hp⟩ := h 0 (by simp)
    simp at hp
    obtain ⟨ps, hps⟩ := ih fun i hi => by
      have := h (i + 1) (by simp only [List.length_cons]; omega)
      simpa using this
    exact ⟨p :: ps, by simp [hp, hps]⟩

end Zerox

namespace Zerox

/-- Claim C1: in bounded-concurrency mode, whenever the run is not
aborted by a THROW-policy error (the scheduler resolves to a result),
each of the `n` slots holds the page its own task produced, so the
final pages list has exactly one entry per image, the entry at index
`i` carries page number `i + 1`, and page numbers are strictly
ascending in caller-input order — for every completion order the
scheduler can exhibit. -/
theorem c1_concurrent_pages_in_input_order (em : ErrorMode)
    (attempts : OcrRequest → Nat → Except String OcrCompletion) (mr n : Nat)
    (order : List Nat) (slots2 : List (Option Page)) (reqs2 : List OcrRequest) (st2 : OcrState)
    (hperm : order.Perm (List.range n))
    (hok : ocrConcurrent em attempts mr initialOcrState (List.replicate n none) [] order =
      .ok (slots2, reqs2, st2)) :
    (slots2.filterMap id).length = n ∧
    (∀ i, i < n → ∃ p, (slots2.filterMap id)[i]? = some p ∧ p.page = i + 1) ∧
    ((slots2.filterMap id).map Page.page).Pairwise (· < ·) := by
  obtain ⟨hlen, _, hwrite, _, _⟩ :=
    ocrConcurrent_spec em attempts mr order initialOcrState (List.replicate n none) []
      slots2 reqs2 st2 hok
  rw [List.length_replicate] at hlen
  have hmem : ∀ i, i < n → i ∈ order := fun i hi =>
    hperm.mem_iff.mpr (List.mem_range.mpr hi)
  have hall : ∀ i, i < slots2.length → ∃ p, slots2[i]? = some (some p) := by
    intro i hi
    rw [hlen] at hi
    obtain ⟨p, hp, _⟩ := hwrite i (hmem i hi) (by simpa using hi)
    exact ⟨p, hp⟩
  obtain ⟨ps, rfl⟩ := exists_map_some slots2 hall
  have hfm : (ps.map some).filterMap id = ps := by
    rw [List.filterMap_map]
    simp
  have hpslen : ps.length = n := by simpa using hlen
  have hget : ∀ i, i < n → ∃ p, ps[i]? = some p ∧ p.page = i + 1 := by
    intro i hi
    obtain ⟨p, hp, hpage⟩ := hwrite i (hmem i hi) (by simpa using hi)
    rw [List.getElem?_map] at hp
    rcases hq : ps[i]? with _ | q
    · rw [hq] at hp
      simp at hp
    · rw [hq] at hp
      simp at hp
      exact ⟨q, rfl, by rw [hp]; exact hpage⟩
  refine ⟨by rw [hfm, hpslen], ?_, ?_⟩
  · intro i hi
    rw [hfm]
    exact hget i hi
  · rw [hfm]
    rw [List.pairwise_iff_getElem]
    intro a b ha hb hab
    rw [List.length_map] at ha hb
    obtain ⟨pa, hpa, hpagea⟩ := hget a (by omega)
    obtain ⟨pb, hpb, hpageb⟩ := hget b (by omega)
    rw [List.getElem?_eq_getElem ha] at hpa
    rw [List.getElem?_eq_getElem hb] at hpb
    rw [List.getElem_map]
    rw [List.getElem_map]
    have hpa2 : ps[a] = pa := by simpa using hpa
    have hpb2 : ps[b] = pb := by simpa using hpb
    rw [hpa2, hpb2, hpagea, hpageb]
    omega

end Zerox

namespace Zerox

/-- Witness for C1: two pages, completion order `[1, 0]` (reverse of
input order); the assembled result still lists page 1 before page 2. -/
theorem c1_concurrent_pages_in_input_order_witness :
    ([1, 0] : List Nat).Perm (List.range 2) ∧
    (([some { content := "P1", contentLength := 2, page := 1, status := PageStatus.SUCCESS,
              error := none, inputTokens := some 1, outputTokens := some 2 },
       some { content := "P2", contentLength := 2, page := 2, status := PageStatus.SUCCESS,
              error := none, inputTokens := some 1, outputTokens := some 2 }] :
        List (Option Page)).filterMap id).length = 2 ∧
    ((([some { content := "P1", contentLength := 2, page := 1, status := PageStatus.SUCCESS,
               error := none, inputTokens := some 1, outputTokens := some 2 },
        some { content := "P2", contentLength := 2, page := 2, status := PageStatus.SUCCESS,
               error := none, inputTokens := some 1, outputTokens := some 2 }] :
         List (Option Page)).filterMap id).map Page.page).Pairwise (· < ·) := by
  have happ := c1_concurrent_pages_in_input_order ErrorMode.IGNORE
    (fun req _ => Except.ok ⟨"P" ++ toString req.pageNumber, 1, 2⟩) 1 2 [1, 0]
    [some { content := "P1", contentLength := 2, page := 1, status := PageStatus.SUCCESS,
            error := none, inputTokens := some 1, outputTokens := some 2 },
     some { content := "P2", contentLength := 2, page := 2, status := PageStatus.SUCCESS,
            error := none, inputTokens := some 1, outputTokens := some 2 }]
    [⟨2, false, ""⟩, ⟨1, false, "P2"⟩]
    { priorPage := "P1", inputTokenCount := 2, outputTokenCount := 4,
      numSuccessfulOCRRequests := 2, numFailedOCRRequests := 0 }
    (by decide) rfl
  exact ⟨by decide, happ.1, happ.2.2⟩

/-- Witness for C2: three requested pages, the completion for page 2
always fails; the run stops after two pages. -/
theorem c2_format_continuity_stops_at_first_error_witness :
    ([{ content := "ok", contentLength := 2, page := 1, status := PageStatus.SUCCESS,
        error := none, inputTokens := some 1, outputTokens := some 1 },
      { content := "", contentLength := 0, page := 2, status := PageStatus.ERROR,
        error := some "Failed to process page 2: boom", inputTokens := none,
        outputTokens := none }] : List Page).length = 1 + 1 ∧
    ([{ content := "ok", contentLength := 2, page := 1, status := PageStatus.SUCCESS,
        error := none, inputTokens := some 1, outputTokens := some 1 },
      { content := "", contentLength := 0, page := 2, status := PageStatus.ERROR,
        error := some "Failed to process page 2: boom", inputTokens := none,
        outputTokens := none }] : List Page).map Page.page = List.range' 1 (1 + 1) ∧
    ([(⟨1, true, ""⟩ : OcrRequest), ⟨2, true, "ok"⟩].map OcrRequest.pageNumber) =
      List.range' 1 (1 + 1) := by
  have happ := c2_format_continuity_stops_at_first_error
    (fun req _ => if req.pageNumber = 2 then Except.error "boom" else Except.ok ⟨"ok", 1, 1⟩)
    1 3 1
    [{ content := "ok", contentLength := 2, page := 1, status := PageStatus.SUCCESS,
       error := none, inputTokens := some 1, outputTokens := some 1 },
     { content := "", contentLength := 0, page := 2, status := PageStatus.ERROR,
       error := some "Failed to process page 2: boom", inputTokens := none,
       outputTokens := none }]
    [⟨1, true, ""⟩, ⟨2, true, "ok"⟩]
    { priorPage := "ok", inputTokenCount := 1, outputTokenCount := 1,
      numSuccessfulOCRRequests := 1, numFailedOCRRequests := 1 }
    { content := "", contentLength := 0, page := 2, status := PageStatus.ERROR,
      error := some "Failed to process page 2: boom", inputTokens := none, outputTokens := none }
    rfl rfl rfl
  exact ⟨happ.1, happ.2.1, happ.2.2.1⟩

end Zerox

namespace Zerox

theorem processOCR_ok_success_prior (em : ErrorMode)
    (attempts : OcrRequest → Nat → Except String OcrCompletion)
    (mr : Nat) (mf : Bool) (st : OcrState) (pn : Nat) (page : Page) (st1 : OcrState)
    (h : (processOCR em attempts mr mf st pn).2 = Except.ok (page, st1))
    (hs : page.status = PageStatus.SUCCESS) :
    st1.priorPage = page.content := by
  rcases hr : runRetries (attempts ⟨pn, mf, st.priorPage⟩) mr with msg | resp
  · cases em
    · simp [processOCR, hr] at h
    · simp [processOCR, hr] at h
      rw [← h.1] at hs
      simp at hs
  · simp [processOCR, hr] at h
    rw [← h.1, ← h.2]

theorem ocrSequential_requests_chain (em : ErrorMode)
    (attempts : OcrRequest → Nat → Except String OcrCompletion) (mr : Nat) :
    ∀ (pns : List Nat) (st : OcrState) (ps : List Page) (reqs : List OcrRequest) (st2 : OcrState),
    ocrSequential em attempts mr st pns = .ok (ps, reqs, st2) →
    (∀ r ∈ reqs, r.maintainFormat = true) ∧
    (∀ r, reqs[0]? = some r → r.priorPage = st.priorPage) ∧
    (∀ j r p, reqs[j + 1]? = some r → ps[j]? = some p → r.priorPage = p.content) := by
  intro pns
  induction pns with
  | nil =>
    intro st ps reqs st2 hrun
    simp only [ocrSequential, Except.ok.injEq, Prod.mk.injEq] at hrun
    obtain ⟨rfl, rfl, rfl⟩ := hrun
    exact ⟨by simp, by simp, by simp⟩
  | cons pn rest ih =>
    intro st ps reqs st2 hrun
    rcases hP : (processOCR em attempts mr true st pn).2 with e | pagest
    · have hsplit : processOCR em attempts mr true st pn =
          (⟨pn, true, st.priorPage⟩, Except.error e) := by
        rw [← processOCR_req em attempts mr true st pn, ← hP]
      rw [ocrSequential, hsplit] at hrun
      simp at hrun
    · obtain ⟨page, st1⟩ := pagest
      have hsplit : processOCR em attempts mr true st pn =
          (⟨pn, true, st.priorPage⟩, Except.ok (page, st1)) := by
        rw [← processOCR_req em attempts mr true st pn, ← hP]
      rw [ocrSequential, hsplit] at hrun
      have hrun2 :
          (if page.status = PageStatus.ERROR then
             Except.ok ([page], [(⟨pn, true, st.priorPage⟩ : OcrRequest)], st1)
           else
             match ocrSequential em attempts mr st1 rest with
             | .error e => .error e
             | .ok (ps1, reqs1, st4) =>
               .ok (page :: ps1, (⟨pn, true, st.priorPage⟩ : OcrRequest) :: reqs1, st4)) =
          Except.ok (ps, reqs, st2) := hrun
      by_cases hstat : page.status = PageStatus.ERROR
      · rw [if_pos hstat] at hrun2
        simp only [Except.ok.injEq, Prod.mk.injEq] at hrun2
        obtain ⟨rfl, rfl, rfl⟩ := hrun2
        refine ⟨?_, ?_, ?_⟩
        · intro r hr
          simp at hr
          simp [hr]
        · intro r hr
          simp at hr
          simp [← hr]
        · intro j r p hr _
          simp at hr
      · rw [if_neg hstat] at hrun2
        rcases hR : ocrSequential em attempts mr st1 rest with e2 | out
        · rw [hR] at hrun2
          simp at hrun2
        · obtain ⟨ps1, reqs1, st4⟩ := out
          rw [hR] at hrun2
          simp only [Except.ok.injEq, Prod.mk.injEq] at hrun2
          obtain ⟨rfl, rfl, rfl⟩ := hrun2
          have hsuc : page.status = PageStatus.SUCCESS := by
            cases h2 : page.status
            · rfl
            · exact absurd h2 hstat
          have hprior : st1.priorPage = page.content :=
            processOCR_ok_success_prior em attempts mr true st pn page st1 hP hsuc
          obtain ⟨hmf, hpr0, hprS⟩ := ih st1 ps1 reqs1 st4 hR
          refine ⟨?_, ?_, ?_⟩
          · intro r hr
            rcases List.mem_cons.mp hr with h2 | h2
            · simp [h2]
            · exact hmf r h2
          · intro r hr
            simp at hr
            simp [← hr]
          · intro j r p hr hp
            cases j with
            | zero =>
              simp at hr hp
              rw [← hp, ← hprior]
              exact hpr0 r hr
            | succ j2 =>
              simp at hr hp
              exact hprS j2 r p hr hp

/-- Claim C8 (amended): in bounded-concurrency mode every OCR
completion request is issued with `maintainFormat = false` — so the
completion client ignores the prior-page context — but the `priorPage`
value actually passed is the current value of the shared `priorPage`
variable, which can be non-empty (see the counterexample); in
format-continuity mode every request has `maintainFormat = true`, the
first request carries the empty initial context, and each later
request carries the content of the page produced just before it. -/
theorem c8_prior_page_context (em em2 : ErrorMode)
    (attempts attempts2 : OcrRequest → Nat → Except String OcrCompletion)
    (mr mr2 n n2 : Nat) (order : List Nat)
    (slots2 : List (Option Page)) (reqs2 : List OcrRequest) (st2 : OcrState)
    (ps : List Page) (reqs : List OcrRequest) (st3 : OcrState)
    (hconc : ocrConcurrent em attempts mr initialOcrState (List.replicate n none) [] order =
      .ok (slots2, reqs2, st2))
    (hseq : ocrSequential em2 attempts2 mr2 initialOcrState (List.range' 1 n2) =
      .ok (ps, reqs, st3)) :
    (∀ r ∈ reqs2, r.maintainFormat = false) ∧
    (∀ r ∈ reqs, r.maintainFormat = true) ∧
    (∀ r, reqs[0]? = some r → r.priorPage = "") ∧
    (∀ j r p, reqs[j + 1]? = some r → ps[j]? = some p → r.priorPage = p.content) := by
  obtain ⟨_, _, _, hreq, _⟩ :=
    ocrConcurrent_spec em attempts mr order initialOcrState (List.replicate n none) []
      slots2 reqs2 st2 hconc
  obtain ⟨hmf, hpr0, hprS⟩ :=
    ocrSequential_requests_chain em2 attempts2 mr2 (List.range' 1 n2) initialOcrState
      ps reqs st3 hseq
  refine ⟨?_, hmf, ?_, hprS⟩
  · intro r hr
    rcases hreq r hr with h | h
    · simp at h
    · exact h
  · intro r hr
    exact hpr0 r hr

/-- Counterexample for C8 as frozen: a bounded-concurrency run
(two pages, tasks completing in submission order, as `p-limit` yields
with `concurrency = 1`) whose second completion request is issued with
the non-empty `priorPage` value `"P1"` left by the first task. -/
theorem c8_counterexample :
    ocrConcurrent ErrorMode.IGNORE
      (fun req _ => Except.ok ⟨"P" ++ toString req.pageNumber, 1, 2⟩) 1
      initialOcrState (List.replicate 2 none) [] [0, 1] =
    .ok ([some { content := "P1", contentLength := 2, page := 1, status := PageStatus.SUCCESS,
                 error := none, inputTokens := some 1, outputTokens := some 2 },
          some { content := "P2", contentLength := 2, page := 2, status := PageStatus.SUCCESS,
                 error := none, inputTokens := some 1, outputTokens := some 2 }],
         [⟨1, false, ""⟩, ⟨2, false, "P1"⟩],
         { priorPage := "P2", inputTokenCount := 2, outputTokenCount := 4,
           numSuccessfulOCRRequests := 2, numFailedOCRRequests := 0 }) ∧
    ((⟨2, false, "P1"⟩ : OcrRequest) ∈
      ([⟨1, false, ""⟩, ⟨2, false, "P1"⟩] : List OcrRequest)) ∧
    (⟨2, false, "P1"⟩ : OcrRequest).priorPage ≠ "" := by
  refine ⟨rfl, by decide, by decide⟩

/-- Witness for C8 (amended) at the same two concrete runs used for C1
and C2. -/
theorem c8_prior_page_context_witness :
    (⟨2, false, "P1"⟩ : OcrRequest).maintainFormat = false ∧
    (⟨2, true, "ok"⟩ : OcrRequest).maintainFormat = true ∧
    (⟨2, true, "ok"⟩ : OcrRequest).priorPage =
      ({ content := "ok", contentLength := 2, page := 1, status := PageStatus.SUCCESS,
         error := none, inputTokens := some 1, outputTokens := some 1 } : Page).content := by
  have happ := c8_prior_page_context ErrorMode.IGNORE ErrorMode.IGNORE
    (fun req _ => Except.ok ⟨"P" ++ toString req.pageNumber, 1, 2⟩)
    (fun req _ => if req.pageNumber = 2 then Except.error "boom" else Except.ok ⟨"ok", 1, 1⟩)
    1 1 2 3 [0, 1]
    [some { content := "P1", contentLength := 2, page := 1, status := PageStatus.SUCCESS,
            error := none, inputTokens := some 1, outputTokens := some 2 },
     some { content := "P2", contentLength := 2, page := 2, status := PageStatus.SUCCESS,
            error := none, inputTokens := some 1, outputTokens := some 2 }]
    [⟨1, false, ""⟩, ⟨2, false, "P1"⟩]
    { priorPage := "P2", inputTokenCount := 2, outputTokenCount := 4,
      numSuccessfulOCRRequests := 2, numFailedOCRRequests := 0 }
    [{ content := "ok", contentLength := 2, page := 1, status := PageStatus.SUCCESS,
       error := none, inputTokens := some 1, outputTokens := some 1 },
     { content := "", contentLength := 0, page := 2, status := PageStatus.ERROR,
       error := some "Failed to process page 2: boom", inputTokens := none,
       outputTokens := none }]
    [⟨1, true, ""⟩, ⟨2, true, "ok"⟩]
    { priorPage := "ok", inputTokenCount := 1, outputTokenCount := 1,
      numSuccessfulOCRRequests := 1, numFailedOCRRequests := 1 }
    rfl rfl
  exact ⟨happ.1 ⟨2, false, "P1"⟩ (by simp),
         happ.2.1 ⟨2, true, "ok"⟩ (by simp),
         happ.2.2.2 0 ⟨2, true, "ok"⟩ _ rfl rfl⟩

end Zerox

namespace Zerox

theorem runRetriesGo_all_fail {α : Type} (op : Nat → Except String α)
    (h : ∀ j, ∃ m, op j = Except.error m) :
    ∀ (ma j : Nat), ∃ m, runRetriesGo op ma j = Except.error m := by
  intro ma
  induction ma using Nat.strong_induction_on with
  | _ ma ih =>
    intro j
    match ma with
    | 0 => exact h j
    | 1 => exact h j
    | n + 2 =>
      obtain ⟨m, hm⟩ := h j
      simp only [runRetriesGo, hm]
      exact ih (n + 1) (by omega) (j + 1)

/-- Every attempt failing makes the retry executor exhaust its budget
and re-raise an error. -/
theorem runRetries_all_fail {α : Type} (op : Nat → Except String α) (ma : Nat)
    (h : ∀ j, ∃ m, op j = Except.error m) :
    ∃ m, runRetries op ma = Except.error m :=
  runRetriesGo_all_fail op h ma 0

/-- Claim C4 (amended): for a page whose OCR retries are exhausted,
under THROW the error propagates out of the page task (and hence out
of the scheduling operation), and under IGNORE an ERROR `Page` is
built with empty content, `contentLength` 0 and a non-empty error
text, the failure counter is bumped, and — in bounded-concurrency
mode — the run continues: the IGNORE fan-out always resolves and every
scheduled task still fills its own slot.  (In format-continuity mode
the loop instead stops after recording the ERROR page; see the C4
counterexample and claim C2.) -/
theorem c4_ocr_retry_exhaustion_policy
    (attempts : OcrRequest → Nat → Except String OcrCompletion)
    (mr : Nat) (mf : Bool) (st : OcrState) (pn : Nat) (msg : String)
    (order : List Nat) (st0 : OcrState) (slots : List (Option Page)) (reqs0 : List OcrRequest)
    (hx : runRetries (attempts ⟨pn, mf, st.priorPage⟩) mr = Except.error msg)
    (horder : ∀ i ∈ order, i < slots.length) :
    (processOCR ErrorMode.THROW attempts mr mf st pn).2 = Except.error msg ∧
    (processOCR ErrorMode.IGNORE attempts mr mf st pn).2 =
      Except.ok
        ({ content := "", contentLength := 0, page := pn, status := PageStatus.ERROR,
           error := some ("Failed to process page " ++ toString pn ++ ": " ++ msg),
           inputTokens := none, outputTokens := none },
         { st with numFailedOCRRequests := st.numFailedOCRRequests + 1 }) ∧
    ("Failed to process page " ++ toString pn ++ ": " ++ msg) ≠ "" ∧
    (∃ slots2 reqs2 st2,
      ocrConcurrent ErrorMode.IGNORE attempts mr st0 slots reqs0 order =
        .ok (slots2, reqs2, st2) ∧
      ∀ i ∈ order, ∃ p, slots2[i]? = some (some p)) := by
  refine ⟨by simp [processOCR, hx], by simp [processOCR, hx], ?_, ?_⟩
  · intro h
    have h2 := congrArg String.length h
    have h3 : "Failed to process page ".length = 23 := by decide
    rw [String.length_append, String.length_append, String.length_append, h3] at h2
    simp at h2
  · obtain ⟨out, hout⟩ := ocrConcurrent_ignore_ok attempts mr order st0 slots reqs0
    obtain ⟨slots2, reqs2, st2⟩ := out
    obtain ⟨_, _, hwrite, _, _⟩ :=
      ocrConcurrent_spec ErrorMode.IGNORE attempts mr order st0 slots reqs0
        slots2 reqs2 st2 hout
    refine ⟨slots2, reqs2, st2, hout, ?_⟩
    intro i hi
    obtain ⟨p, hp, _⟩ := hwrite i hi (horder i hi)
    exact ⟨p, hp⟩

/-- Counterexample for C4 as frozen: format-continuity mode, IGNORE
policy, two input pages, every completion attempt failing — page 1's
retries are exhausted, an ERROR page is recorded, but the run does
*not* continue to the remaining page: only one request is ever issued
and page 2 is never processed. -/
theorem c4_counterexample :
    ocrSequential ErrorMode.IGNORE (fun _ _ => Except.error "boom") 1 initialOcrState
      (List.range' 1 2) =
      .ok ([{ content := "", contentLength := 0, page := 1, status := PageStatus.ERROR,
              error := some "Failed to process page 1: boom", inputTokens := none,
              outputTokens := none }],
           [⟨1, true, ""⟩],
           { priorPage := "", inputTokenCount := 0, outputTokenCount := 0,
             numSuccessfulOCRRequests := 0, numFailedOCRRequests := 1 }) ∧
    runRetries ((fun (_ : OcrRequest) (_ : Nat) => Except.error (α := OcrCompletion) "boom")
      ⟨1, true, ""⟩) 1 = Except.error "boom" ∧
    ¬ ((2 : Nat) ∈ ([⟨1, true, ""⟩] : List OcrRequest).map OcrRequest.pageNumber) :=
  ⟨rfl, rfl, by decide⟩

/-- Witness for C4 (amended) with a concretely exhausted retry budget
of 2 attempts. -/
theorem c4_ocr_retry_exhaustion_policy_witness :
    (processOCR ErrorMode.THROW (fun _ _ => Except.error "boom") 2 false initialOcrState 1).2 =
      Except.error "boom" ∧
    (processOCR ErrorMode.IGNORE (fun _ _ => Except.error "boom") 2 false initialOcrState 1).2 =
      Except.ok
        ({ content := "", contentLength := 0, page := 1, status := PageStatus.ERROR,
           error := some ("Failed to process page " ++ toString 1 ++ ": " ++ "boom"),
           inputTokens := none, outputTokens := none },
         { initialOcrState with numFailedOCRRequests := initialOcrState.numFailedOCRRequests + 1 }) ∧
    ("Failed to process page " ++ toString 1 ++ ": " ++ "boom") ≠ "" := by
  have happ := c4_ocr_retry_exhaustion_policy (fun _ _ => Except.error "boom") 2 false
    initialOcrState 1 "boom" [0] initialOcrState (List.replicate 1 none) []
    rfl (by decide)
  exact ⟨happ.1, happ.2.1, happ.2.2.1⟩

end Zerox

namespace Zerox

theorem formatPagesFrom_getElem : ∀ (sel : PagesSel) (l : List Page) (k i : Nat),
    (formatPagesFrom sel k l)[i]? = Option.map (formatPage sel (k + i)) l[i]? := by
  intro sel l
  induction l with
  | nil =>
    intro k i
    simp [formatPagesFrom]
  | cons p rest ih =>
    intro k i
    cases i with
    | zero => simp [formatPagesFrom]
    | succ i2 =>
      simp only [formatPagesFrom, List.getElem?_cons_succ]
      rw [ih (k + 1) i2]
      have h : k + 1 + i2 = k + (i2 + 1) := by omega
      rw [h]

/-- Claim C5: caller-facing page numbering of the final remap.  For a
produced page at zero-based index `i`: with the sentinel selector `-1`
the page number is `i + 1`; with a list selector it is the `i`-th
element of the ascending-sorted selector list (which exists when the
list covers the produced pages, the sort being an ascending
permutation of the caller's list); with a single non-sentinel number
it is that number itself. -/
theorem c5_page_number_remap (ps : List Page) (i : Nat) (xs : List Int) (m : Int)
    (hi : i < ps.length) (hix : i < xs.length) (hm : m ≠ -1) :
    ((formatPages (sortSel (PagesSel.num (-1))) ps)[i]?.map FormattedPage.page) =
      some (some ((i : Int) + 1)) ∧
    ((formatPages (sortSel (PagesSel.arr xs)) ps)[i]?.map FormattedPage.page) =
      some ((sortAsc xs)[i]?) ∧
    ((sortAsc xs)[i]?).isSome = true ∧
    (sortAsc xs).Perm xs ∧
    List.Sorted (fun a b => a ≤ b) (sortAsc xs) ∧
    ((formatPages (sortSel (PagesSel.num m)) ps)[i]?.map FormattedPage.page) =
      some (some m) := by
  have hget := List.getElem?_eq_getElem hi
  have hlen : (sortAsc xs).length = xs.length := by
    simp [sortAsc, List.length_insertionSort]
  refine ⟨?_, ?_, ?_, ?_, ?_, ?_⟩
  · rw [formatPages, formatPagesFrom_getElem, hget]
    simp [formatPage, correctPageNumber, sortSel]
  · rw [formatPages, formatPagesFrom_getElem, hget]
    simp [formatPage, correctPageNumber, sortSel]
  · rw [List.getElem?_eq_getElem (by omega : i < (sortAsc xs).length)]
    rfl
  · exact List.perm_insertionSort _ xs
  · exact List.sorted_insertionSort _ xs
  · rw [formatPages, formatPagesFrom_getElem, hget]
    simp [formatPage, correctPageNumber, sortSel, hm]

/-- Witness for C5: two produced pages, selector list `[9, 3]` (sorted
to `[3, 9]`), single-number selector `5`, at index `1`. -/
theorem c5_page_number_remap_witness :
    ((formatPages (sortSel (PagesSel.num (-1)))
        [{ content := "a", contentLength := 1, page := 1, status := PageStatus.SUCCESS,
           error := none, inputTokens := none, outputTokens := none },
         { content := "b", contentLength := 1, page := 2, status := PageStatus.SUCCESS,
           error := none, inputTokens := none, outputTokens := none }])[1]?.map
      FormattedPage.page) = some (some ((1 : Int) + 1)) ∧
    ((formatPages (sortSel (PagesSel.arr [9, 3]))
        [{ content := "a", contentLength := 1, page := 1, status := PageStatus.SUCCESS,
           error := none, inputTokens := none, outputTokens := none },
         { content := "b", contentLength := 1, page := 2, status := PageStatus.SUCCESS,
           error := none, inputTokens := none, outputTokens := none }])[1]?.map
      FormattedPage.page) = some ((sortAsc [9, 3])[1]?) ∧
    ((formatPages (sortSel (PagesSel.num 5))
        [{ content := "a", contentLength := 1, page := 1, status := PageStatus.SUCCESS,
           error := none, inputTokens := none, outputTokens := none },
         { content := "b", contentLength := 1, page := 2, status := PageStatus.SUCCESS,
           error := none, inputTokens := none, outputTokens := none }])[1]?.map
      FormattedPage.page) = some (some 5) := by
  have happ := c5_page_number_remap
    [{ content := "a", contentLength := 1, page := 1, status := PageStatus.SUCCESS,
       error := none, inputTokens := none, outputTokens := none },
     { content := "b", contentLength := 1, page := 2, status := PageStatus.SUCCESS,
       error := none, inputTokens := none, outputTokens := none }]
    1 [9, 3] 5 (by decide) (by decide) (by decide)
  exact ⟨happ.1, happ.2.1, happ.2.2.2.2.2⟩

end Zerox

namespace Zerox

theorem zeroxTryBody_error_events (cfg : ZeroxConfig)
    (attempts : OcrRequest → Nat → Except String OcrCompletion) (order : List Nat) (n : Nat)
    (e : String) (h : (zeroxTryBody cfg attempts order n).1 = .error e) :
    (zeroxTryBody cfg attempts order n).2 = [] := by
  rcases hph : ocrPhase cfg attempts order n with e2 | ps
  · simp [zeroxTryBody, hph]
  · simp [zeroxTryBody, hph] at h

theorem zeroxTryBody_ok_events (cfg : ZeroxConfig)
    (attempts : OcrRequest → Nat → Except String OcrCompletion) (order : List Nat) (n : Nat)
    (ps : List FormattedPage) (h : (zeroxTryBody cfg attempts order n).1 = .ok ps) :
    (zeroxTryBody cfg attempts order n).2 =
      (if cfg.cleanup then [TeardownEvent.removeTempDir] else []) := by
  rcases hph : ocrPhase cfg attempts order n with e2 | ps2
  · simp [zeroxTryBody, hph] at h
  · simp [zeroxTryBody, hph]

theorem zeroxTryBody_events_cases (cfg : ZeroxConfig)
    (attempts : OcrRequest → Nat → Except String OcrCompletion) (order : List Nat) (n : Nat) :
    (zeroxTryBody cfg attempts order n).2 = [] ∨
    (zeroxTryBody cfg attempts order n).2 = [TeardownEvent.removeTempDir] := by
  rcases hph : ocrPhase cfg attempts order n with e2 | ps2
  · exact Or.inl (by simp [zeroxTryBody, hph])
  · by_cases hc : cfg.cleanup
    · exact Or.inr (by simp [zeroxTryBody, hph, hc])
    · exact Or.inl (by simp [zeroxTryBody, hph, hc])

/-- Claim C6 (amended): the `finally` block makes worker-pool
termination unconditional — `terminateScheduler` is attempted exactly
when orientation correction is enabled, on the success and failure
paths alike.  Temp-directory removal, however, sits on the success
path inside the `try` body: with `cleanup` enabled it runs iff the
pipeline reaches its normal return, and it is skipped whenever the
pipeline fails midway. -/
theorem c6_teardown (cfg : ZeroxConfig)
    (attempts : OcrRequest → Nat → Except String OcrCompletion) (order : List Nat) (n : Nat) :
    (TeardownEvent.terminateScheduler ∈ (zeroxCore cfg attempts order n).2 ↔
      cfg.correctOrientation = true) ∧
    (∀ e, (zeroxCore cfg attempts order n).1 = .error e →
      TeardownEvent.removeTempDir ∉ (zeroxCore cfg attempts order n).2) ∧
    (∀ ps, (zeroxCore cfg attempts order n).1 = .ok ps →
      (TeardownEvent.removeTempDir ∈ (zeroxCore cfg attempts order n).2 ↔
        cfg.cleanup = true)) := by
  have hev : (zeroxCore cfg attempts order n).2 =
      (zeroxTryBody cfg attempts order n).2 ++
        (if cfg.correctOrientation then [TeardownEvent.terminateScheduler] else []) := rfl
  have hres : (zeroxCore cfg attempts order n).1 = (zeroxTryBody cfg attempts order n).1 := rfl
  refine ⟨?_, ?_, ?_⟩
  · constructor
    · intro hmem
      rw [hev] at hmem
      rcases List.mem_append.mp hmem with h | h
      · rcases zeroxTryBody_events_cases cfg attempts order n with h2 | h2 <;>
          rw [h2] at h <;> simp at h
      · by_cases hco : cfg.correctOrientation = true
        · exact hco
        · rw [if_neg hco] at h
          simp at h
    · intro hco
      rw [hev, if_pos hco]
      simp
  · intro e he
    rw [hres] at he
    have h2 := zeroxTryBody_error_events cfg attempts order n e he
    rw [hev, h2]
    by_cases hco : cfg.correctOrientation = true <;> simp [hco]
  · intro ps hps
    rw [hres] at hps
    have h2 := zeroxTryBody_ok_events cfg attempts order n ps hps
    rw [hev, h2]
    constructor
    · intro hmem
      rcases List.mem_append.mp hmem with h | h
      · by_cases hc : cfg.cleanup = true
        · exact hc
        · rw [if_neg hc] at h
          simp at h
      · by_cases hco : cfg.correctOrientation = true
        · rw [if_pos hco] at h
          simp at h
        · rw [if_neg hco] at h
          simp at h
    · intro hc
      rw [if_pos hc]
      simp

/-- Counterexample for C6 as frozen: `cleanup = true` and
`correctOrientation = true`, a THROW-policy failure on the single page
aborts the pipeline; the scheduler is terminated by the `finally`
block but the temp directory is never removed — teardown of the temp
directory is not attempted unconditionally. -/
theorem c6_counterexample :
    (zeroxCore
      { cleanup := true, correctOrientation := true, errorMode := ErrorMode.THROW,
        maintainFormat := false, maxRetries := 1, pagesToConvertAsImages := PagesSel.num (-1) }
      (fun _ _ => Except.error "boom") [0] 1).1 = Except.error "boom" ∧
    TeardownEvent.terminateScheduler ∈ (zeroxCore
      { cleanup := true, correctOrientation := true, errorMode := ErrorMode.THROW,
        maintainFormat := false, maxRetries := 1, pagesToConvertAsImages := PagesSel.num (-1) }
      (fun _ _ => Except.error "boom") [0] 1).2 ∧
    TeardownEvent.removeTempDir ∉ (zeroxCore
      { cleanup := true, correctOrientation := true, errorMode := ErrorMode.THROW,
        maintainFormat := false, maxRetries := 1, pagesToConvertAsImages := PagesSel.num (-1) }
      (fun _ _ => Except.error "boom") [0] 1).2 := by
  refine ⟨rfl, ?_, ?_⟩
  · have h : (zeroxCore
        { cleanup := true, correctOrientation := true, errorMode := ErrorMode.THROW,
          maintainFormat := false, maxRetries := 1, pagesToConvertAsImages := PagesSel.num (-1) }
        (fun _ _ => Except.error "boom") [0] 1).2 = [TeardownEvent.terminateScheduler] := rfl
    rw [h]
    simp
  · have h : (zeroxCore
        { cleanup := true, correctOrientation := true, errorMode := ErrorMode.THROW,
          maintainFormat := false, maxRetries := 1, pagesToConvertAsImages := PagesSel.num (-1) }
        (fun _ _ => Except.error "boom") [0] 1).2 = [TeardownEvent.terminateScheduler] := rfl
    rw [h]
    simp

/-- Witness for C6 (amended): the failing run of the counterexample
still terminates the scheduler, and a succeeding run with
`cleanup = true` removes the temp directory. -/
theorem c6_teardown_witness :
    (TeardownEvent.terminateScheduler ∈ (zeroxCore
      { cleanup := true, correctOrientation := true, errorMode := ErrorMode.THROW,
        maintainFormat := false, maxRetries := 1, pagesToConvertAsImages := PagesSel.num (-1) }
      (fun _ _ => Except.error "boom") [0] 1).2) ∧
    (TeardownEvent.removeTempDir ∉ (zeroxCore
      { cleanup := true, correctOrientation := true, errorMode := ErrorMode.THROW,
        maintainFormat := false, maxRetries := 1, pagesToConvertAsImages := PagesSel.num (-1) }
      (fun _ _ => Except.error "boom") [0] 1).2) := by
  have happ := c6_teardown
    { cleanup := true, correctOrientation := true, errorMode := ErrorMode.THROW,
      maintainFormat := false, maxRetries := 1, pagesToConvertAsImages := PagesSel.num (-1) }
    (fun _ _ => Except.error "boom") [0] 1
  exact ⟨happ.1.mpr rfl, happ.2.1 "boom" rfl⟩

end Zerox

namespace Zerox

theorem runExtTask_result_state_independent (mr : Nat) (t : ExtTask) (s1 s2 : ExtState) :
    (runExtTask mr t s1).1 = (runExtTask mr t s2).1 := by
  cases t with
  | perPage sk pn att => rcases h : runRetries att mr with m | r <;> simp [runExtTask, h]
  | fullDoc outcome => rcases outcome with m | r <;> simp [runExtTask]

theorem runExtTasks_results (mr : Nat) :
    ∀ (ts : List ExtTask) (st : ExtState),
    (runExtTasks mr ts st).1 = ts.map fun t => (runExtTask mr t st).1 := by
  intro ts
  induction ts with
  | nil => intro st; rfl
  | cons t rest ih =>
    intro st
    rcases hE : runExtTask mr t st with ⟨r, st1⟩
    rcases hR : runExtTasks mr rest st1 with ⟨rs, st2⟩
    have hstep : runExtTasks mr (t :: rest) st = (r :: rs, st2) := by
      simp [runExtTasks, hE, hR]
    rw [hstep]
    simp only [List.map_cons]
    have hr : r = (runExtTask mr t st).1 := by rw [hE]
    have hrs : rs = (runExtTasks mr rest st1).1 := by rw [hR]
    rw [hr, hrs, ih st1]
    congr 1
    exact List.map_congr_left fun t2 _ => runExtTask_result_state_independent mr t2 st1 st

theorem promiseAll_error {α : Type} :
    ∀ (rs : List (Except String α)) (j : Nat) (m : String),
    rs[j]? = some (Except.error m) → ∃ e, promiseAll rs = Except.error e := by
  intro rs
  induction rs with
  | nil =>
    intro j m h
    simp at h
  | cons r rest ih =>
    intro j m h
    cases j with
    | zero =>
      simp at h
      rw [h]
      exact ⟨m, rfl⟩
    | succ j2 =>
      simp at h
      rcases r with e | v
      · exact ⟨e, rfl⟩
      · obtain ⟨e, he⟩ := ih j2 m h
        exact ⟨e, by simp [promiseAll, he]⟩

/-- Claim C7: extraction-task failures always propagate.  A per-page
task whose retries are exhausted, and the full-document task on its
single failed attempt, bump the failure counter and re-raise the error
with no IGNORE-equivalent (`processExtraction` never consults the
error mode); any such rejected task rejects the `Promise.all` of the
extraction phase, while every sibling task still settles to its own
result (its value is independent of the shared-counter state and is
present in the collected results). -/
theorem c7_extraction_errors_propagate
    (sk : List String) (pn : Int) (att : Nat → Except String ExtCompletion)
    (mr : Nat) (msg msg2 : String) (st : ExtState) (ts : List ExtTask)
    (hx : runRetries att mr = Except.error msg) :
    runExtTask mr (ExtTask.perPage sk pn att) st =
      (Except.error msg,
       { st with numFailedExtractionRequests := st.numFailedExtractionRequests + 1 }) ∧
    runExtTask mr (ExtTask.fullDoc (Except.error msg2)) st =
      (Except.error msg2,
       { st with numFailedExtractionRequests := st.numFailedExtractionRequests + 1 }) ∧
    (∀ (j : Nat) (t : ExtTask) (m : String), ts[j]? = some t →
      (runExtTask mr t st).1 = Except.error m →
      ∃ e, promiseAll ((runExtTasks mr ts st).1) = Except.error e) ∧
    (∀ (j : Nat) (t : ExtTask) (v : JObject), ts[j]? = some t →
      (runExtTask mr t st).1 = Except.ok v →
      ((runExtTasks mr ts st).1)[j]? = some (Except.ok v)) := by
  refine ⟨by simp [runExtTask, hx], by simp [runExtTask], ?_, ?_⟩
  · intro j t m hj ht
    apply promiseAll_error _ j m
    rw [runExtTasks_results, List.getElem?_map, hj]
    simp [ht]
  · intro j t v hj ht
    rw [runExtTasks_results, List.getElem?_map, hj]
    simp [ht]

/-- Witness for C7: a per-page task with all attempts failing next to
a succeeding full-document task; the phase rejects while the sibling
result is still collected. -/
theorem c7_extraction_errors_propagate_witness :
    runExtTask 1 (ExtTask.perPage ["f"] 1 (fun _ => Except.error "x")) ⟨0, 0, 0, 0⟩ =
      (Except.error "x", ⟨0, 0, 0, 1⟩) ∧
    ((runExtTasks 1
        [ExtTask.fullDoc (Except.ok ⟨[("g", JValue.jstr "v")], 1, 1⟩),
         ExtTask.perPage ["f"] 1 (fun _ => Except.error "x")] ⟨0, 0, 0, 0⟩).1)[0]? =
      some (Except.ok [("g", JValue.jstr "v")]) := by
  have happ := c7_extraction_errors_propagate ["f"] 1 (fun _ => Except.error "x") 1 "x" "y"
    ⟨0, 0, 0, 0⟩
    [ExtTask.fullDoc (Except.ok ⟨[("g", JValue.jstr "v")], 1, 1⟩),
     ExtTask.perPage ["f"] 1 (fun _ => Except.error "x")]
    rfl
  exact ⟨happ.1,
         happ.2.2.2 0 (ExtTask.fullDoc (Except.ok ⟨[("g", JValue.jstr "v")], 1, 1⟩))
           [("g", JValue.jstr "v")] rfl rfl⟩

end Zerox

namespace Zerox

/-- Claim C9: a non-empty `openaiAPIKey` overrides any caller-supplied
provider and credentials — the provider is forced to OPENAI and the
credentials object is replaced by `{ apiKey: openaiAPIKey }` before
validation, so the "Missing credentials" check cannot fail and any
Bedrock credentials passed alongside are ignored (the result does not
depend on them). -/
theorem c9_openai_key_overrides_credentials (openaiAPIKey : String)
    (modelProvider : ModelProvider) (credentials : Credentials)
    (h : 0 < openaiAPIKey.length) :
    applyOpenAIKeyOverride openaiAPIKey modelProvider credentials =
      (ModelProvider.OPENAI, [("apiKey", openaiAPIKey)]) ∧
    missingCredentials (applyOpenAIKeyOverride openaiAPIKey modelProvider credentials).2 =
      false := by
  have hres : applyOpenAIKeyOverride openaiAPIKey modelProvider credentials =
      (ModelProvider.OPENAI, [("apiKey", openaiAPIKey)]) := by
    simp [applyOpenAIKeyOverride, h]
  refine ⟨hres, ?_⟩
  rw [hres]
  have hne : openaiAPIKey ≠ "" := by
    intro he
    rw [he] at h
    simp at h
  simp [missingCredentials, hne]

/-- Witness for C9: Bedrock provider and credentials passed alongside
a concrete OpenAI key. -/
theorem c9_openai_key_overrides_credentials_witness :
    applyOpenAIKeyOverride "sk-test" ModelProvider.BEDROCK [("region", "us-east-1")] =
      (ModelProvider.OPENAI, [("apiKey", "sk-test")]) ∧
    missingCredentials
      (applyOpenAIKeyOverride "sk-test" ModelProvider.BEDROCK [("region", "us-east-1")]).2 =
      false := by
  have happ := c9_openai_key_overrides_credentials "sk-test" ModelProvider.BEDROCK
    [("region", "us-east-1")] (by decide)
  exact ⟨happ.1, happ.2⟩

/-- Claim C10: when `pagesToConvertAsImages` is an array, `zerox`
sorts the caller's array object in place in ascending numeric order:
after the call the caller's own reference reads as the ascending sort
(a permutation of the original contents, sorted non-decreasingly),
every other array object in the store is untouched, and a numeric
argument leaves the store entirely unchanged. -/
theorem c10_selector_sorted_in_place (store : ArrayStore) (r : Nat) (xs : List Int) (m : Int)
    (h : store[r]? = some xs) :
    (sortPagesInStore store (PagesArgRef.ref r))[r]? = some (sortAsc xs) ∧
    (∀ r2, r2 ≠ r → (sortPagesInStore store (PagesArgRef.ref r))[r2]? = store[r2]?) ∧
    (sortAsc xs).Perm xs ∧
    List.Sorted (fun a b => a ≤ b) (sortAsc xs) ∧
    sortPagesInStore store (PagesArgRef.num m) = store := by
  have hr : r < store.length := by
    by_contra hge
    push_neg at hge
    rw [List.getElem?_eq_none hge] at h
    simp at h
  refine ⟨?_, ?_, List.perm_insertionSort _ xs, List.sorted_insertionSort _ xs, rfl⟩
  · simp only [sortPagesInStore, h]
    rw [List.getElem?_set_eq_of_lt _ hr]
  · intro r2 hr2
    simp only [sortPagesInStore, h]
    rw [List.getElem?_set_ne (Ne.symm hr2)]

/-- Witness for C10: a two-array store whose first array is the
caller's selector `[9, 3, 7]`. -/
theorem c10_selector_sorted_in_place_witness :
    (sortPagesInStore [[9, 3, 7], [1, 2]] (PagesArgRef.ref 0))[0]? = some (sortAsc [9, 3, 7]) ∧
    (sortAsc ([9, 3, 7] : List Int)).Perm [9, 3, 7] ∧
    List.Sorted (fun (a b : Int) => a ≤ b) (sortAsc [9, 3, 7]) ∧
    (sortPagesInStore [[9, 3, 7], [1, 2]] (PagesArgRef.ref 0))[1]? = some [1, 2] := by
  have happ := c10_selector_sorted_in_place [[9, 3, 7], [1, 2]] 0 [9, 3, 7] 5 rfl
  exact ⟨happ.1, happ.2.2.1, happ.2.2.2.1, happ.2.1 1 (by decide)⟩

end Zerox
